import Mathlib

/-!
# Verification of the GymMonsterAnalytics fatigue / aggregation frontend

Shallow embedding of the JavaScript source under `src/static/` (first revision
in each file, the one the claims cite):

* `src/static/app.js` — muscle-group mapping accessors (`getMuscleGroup`,
  `getSecondaryMuscle`, `getSecondaryPercent`, lines 60–76) and the fatigue
  engine `computeMuscleFatigue` (lines 242–307);
* `src/static/workouts.js` — the per-set weight derivation inside
  `renderTrainingExercise` (lines 300–332);
* `src/static/charts.js` — `buildWeekBuckets` / `aggregateWeekly` (lines 3–38).

Embedding conventions:

* JavaScript objects are association lists in insertion order (`alookup` is
  first-match lookup; `m[k] = v` on a fresh key appends at the end, exactly
  like JS property insertion order for non-integer string keys).
* JS numbers are modelled as `ℚ`.  The claims we settle only involve exact
  dyadic/decimal values, where IEEE doubles and rationals agree.
* JS string comparison (`<`, `>`) compares UTF-16 code units; we model it by
  `jsLtStr`, lexicographic comparison of the character lists (identical on
  the ASCII data involved).
* `new Date(s).getTime()` is the browser's timestamp parser; it is passed in
  as an explicit parameter `f : String → ℚ` (milliseconds), as the engine
  only consumes it through this interface.  `Date.now()` is the parameter
  `n : ℚ`.
* Calendar arithmetic in `charts.js` (`setDate`, `getDay`, `toISOString`) is
  modelled on integer epoch-day numbers: `getDay` of epoch day `d` is
  `(d + 4) % 7` (1970-01-01 was a Thursday), and the lexicographic
  comparison of ISO date strings agrees with the numeric order of their
  epoch-day numbers.
-/

/-- JS code-unit comparison of character lists: `s < t` in JavaScript. -/
def charsLt : List Char → List Char → Bool
  | _, [] => false
  | [], _ :: _ => true
  | a :: as, b :: bs => if a < b then true else if b < a then false else charsLt as bs

/-- JS string comparison `s < t` (UTF-16 code-unit lexicographic order). -/
def jsLtStr (s t : String) : Bool := charsLt s.data t.data

/-- JS string comparison `s <= t`. -/
def jsLeStr (s t : String) : Bool := !(jsLtStr t s)

/-- First-match association-list lookup, the semantics of `obj[key]` for a
JS object modelled as an insertion-ordered association list. -/
def alookup {α : Type} : List (String × α) → String → Option α
  | [], _ => none
  | (k, v) :: t, k' => if k = k' then some v else alookup t k'

/-- Lookup with default 0, the semantics of `(obj[key] || 0)` for numeric
values (note `0` itself is falsy, so the default also fires on stored 0,
which yields the same number). -/
def lookupD (l : List (String × ℚ)) (k : String) : ℚ := (alookup l k).getD 0

/- ── Muscle group mappings — src/static/app.js lines 49–86 ── -/

/-- Entry of `_muscleGroupMap` in object form: `{primary, secondary,
secondaryPercent}`.  A missing/empty string field is modelled as `""`
(falsy), a missing `secondaryPercent` as `none` (the code tests
`!= null`). -/
structure MGEntry where
  primary : String
  secondary : String
  secondaryPercent : Option ℚ
deriving DecidableEq

/-- An entry of `_muscleGroupMap`: either a legacy plain string
(`typeof entry === 'string'`) or an object entry. -/
inductive MapEntry : Type
  | legacy (group : String)
  | obj (e : MGEntry)
deriving DecidableEq

/-- The `_muscleGroupMap` object: exercise name to entry, `none` when the
exercise is absent from the mapping. -/
abbrev MuscleMap : Type := String → Option MapEntry

/-- app.js lines 60–64: `getMuscleGroup`.  `!entry` is true for a missing
entry and for the legacy empty string; otherwise a legacy string is
returned as-is and an object entry yields `entry.primary || 'Other'`. -/
def getMuscleGroup (m : MuscleMap) (name : String) : String :=
  match m name with
  | none => "Other"
  | some (.legacy s) => if s = "" then "Other" else s
  | some (.obj e) => if e.primary = "" then "Other" else e.primary

/-- app.js lines 66–70: `getSecondaryMuscle`.  Missing or legacy entries give
`'None'`, object entries give `entry.secondary || 'None'`. -/
def getSecondaryMuscle (m : MuscleMap) (name : String) : String :=
  match m name with
  | some (.obj e) => if e.secondary = "" then "None" else e.secondary
  | some (.legacy _) => "None"
  | none => "None"

/-- app.js lines 72–76: `getSecondaryPercent`.  Missing or legacy entries give
`50`, object entries give `entry.secondaryPercent != null ?
entry.secondaryPercent : 50`. -/
def getSecondaryPercent (m : MuscleMap) (name : String) : ℚ :=
  match m name with
  | some (.obj e) => e.secondaryPercent.getD 50
  | some (.legacy _) => 50
  | none => 50

/-- The guard `secondary && secondary !== 'None'` of app.js line 258
(string truthiness plus the explicit `'None'` test). -/
def secondaryActive (m : MuscleMap) (name : String) : Prop :=
  getSecondaryMuscle m name ≠ "" ∧ getSecondaryMuscle m name ≠ "None"

instance (m : MuscleMap) (name : String) : Decidable (secondaryActive m name) :=
  inferInstanceAs (Decidable (_ ∧ _))

/- ── Fatigue event construction — app.js lines 242–263 ── -/

/-- The per-exercise daily volume map `window._exerciseDaily`:
exercise name ↦ (ISO date string ↦ volume). -/
abbrev DailyList : Type := List (String × List (String × ℚ))

/-- `m[k] = (m[k] || 0) + v` on a contribution object: update in place when
the key exists, append at the end otherwise (JS insertion order). -/
def updAdd (l : List (String × ℚ)) (k : String) (v : ℚ) : List (String × ℚ) :=
  match l with
  | [] => [(k, v)]
  | (k', v') :: t => if k' = k then (k', v' + v) :: t else (k', v') :: updAdd t k v

/-- app.js lines 255–256 / 259–260: ensure `muscleEvents[g]` exists, then
`muscleEvents[g][d] = (muscleEvents[g][d] || 0) + v`. -/
def addEvent (me : List (String × List (String × ℚ))) (g d : String) (v : ℚ) :
    List (String × List (String × ℚ)) :=
  match me with
  | [] => [(g, updAdd [] d v)]
  | (g', dm) :: t => if g' = g then (g', updAdd dm d v) :: t else (g', dm) :: addEvent t g d v

/-- Body of the date loop of app.js lines 254–262 for one exercise `ex` and
one date key `d`: add 1.0 to the primary group and, when the guard
`secondary && secondary !== 'None'` passes, `secondaryPercent/100` to the
secondary group. -/
def exerciseStep (m : MuscleMap) (ex : String)
    (me : List (String × List (String × ℚ))) (d : String) :
    List (String × List (String × ℚ)) :=
  let me1 := addEvent me (getMuscleGroup m ex) d 1
  if getSecondaryMuscle m ex ≠ "" ∧ getSecondaryMuscle m ex ≠ "None" then
    addEvent me1 (getSecondaryMuscle m ex) d (getSecondaryPercent m ex / 100)
  else me1

/-- app.js lines 249–263: build `muscleEvents` from `_exerciseDaily`.  For
every exercise and every date key of its daily map (the stored volume value
`q.2` is not consulted — the loop is `for (const date of
Object.keys(dateMap))`), run `exerciseStep`. -/
def buildEvents (m : MuscleMap) (l : DailyList) : List (String × List (String × ℚ)) :=
  l.foldl (fun me p => p.2.foldl (fun me' q => exerciseStep m p.1 me' q.1) me) []

/-- Contribution recorded for group `g` on date `d` (`muscleEvents[g][d]`). -/
def contribAt (me : List (String × List (String × ℚ))) (g d : String) : Option ℚ :=
  (alookup me g).bind (fun dm => alookup dm d)

/- ── Chronological processing — app.js lines 265–307 ── -/

/-- `Array.prototype.sort()` on date keys: JS sorts the key strings by
code-unit order; modelled as insertion sort over `jsLeStr`. -/
def orderedInsertJs (d : String) : List String → List String
  | [] => [d]
  | e :: t => if jsLeStr d e then d :: e :: t else e :: orderedInsertJs d t

/-- Sorted list of a group's event dates (app.js line 269). -/
def sortKeys : List String → List String
  | [] => []
  | d :: t => orderedInsertJs d (sortKeys t)

/-- `Object.keys(dateContribs).sort()` for one muscle group. -/
def groupDates (dm : List (String × ℚ)) : List String := sortKeys (dm.map Prod.fst)

/-- app.js lines 277–278: linear decay between events, floored at 0.
`max 0 (cur - ((dateMs - lastMs) / 3600000) / recoveryHours)`. -/
def decayStep (r cur lastMs dateMs : ℚ) : ℚ := max 0 (cur - (dateMs - lastMs) / 3600000 / r)

/-- app.js line 281: add the day's contribution and cap at 1.0. -/
def addStep (cur contrib : ℚ) : ℚ := min 1 (cur + contrib)

/-- One iteration of the per-date loop (app.js lines 273–283).  State is
`(currentFatigue, lastMs)`; `f` models `new Date(s).getTime()`. -/
def fatigueStep (f : String → ℚ) (r : ℚ) (dm : List (String × ℚ))
    (st : ℚ × Option ℚ) (d : String) : ℚ × Option ℚ :=
  let dateMs := f (d ++ "T12:00:00")
  let cur1 :=
    match st.2 with
    | none => st.1
    | some lastMs => decayStep r st.1 lastMs dateMs
  (addStep cur1 (lookupD dm d), some dateMs)

/-- The whole per-group chronological loop (app.js lines 270–283), starting
from fatigue 0 and `lastMs = null`. -/
def runLoop (f : String → ℚ) (r : ℚ) (dm : List (String × ℚ)) : ℚ × Option ℚ :=
  (groupDates dm).foldl (fatigueStep f r dm) (0, none)

/-- Replace the first space of a string by `'T'`, the effect of
`ft.replace(' ', 'T')` (JS `replace` with a string pattern replaces only the
first occurrence). -/
def replaceFirstSpaceAux : List Char → List Char
  | [] => []
  | c :: t => if c = ' ' then 'T' :: t else c :: replaceFirstSpaceAux t

/-- String version of `replaceFirstSpaceAux`. -/
def replaceFirstSpace (s : String) : String := ⟨replaceFirstSpaceAux s.data⟩

/-- app.js lines 288–298: find the "most precise" timestamp for the group's
last event date.  Starts from the mid-day string `lastDate + 'T12:00:00'`;
for every exercise whose primary or secondary muscle is this group, the
last-time string `ft` replaces the running best when `ft` is truthy, its
first 10 characters equal `lastDate`, and `ft > bestTimestamp` in JS string
order. -/
def bestTimestamp (m : MuscleMap) (l : DailyList) (t : String → Option String)
    (group lastDate : String) : String :=
  l.foldl
    (fun best p =>
      let g2 := getMuscleGroup m p.1
      let s2 := getSecondaryMuscle m p.1
      if g2 ≠ group ∧ s2 ≠ group then best
      else
        match t p.1 with
        | none => best
        | some ft =>
            if ft ≠ "" ∧ ft.take 10 = lastDate ∧ jsLtStr best ft = true then
              replaceFirstSpace ft
            else best)
    (lastDate ++ "T12:00:00")

/-- app.js lines 285–303: the value stored as `fatigue[group]` — the loop
result followed by the final decay from the last event to `now` (`n`),
using `bestTimestamp` for the last date.  When there was no event the loop
value (0) is kept unchanged, exactly as the `lastMs !== null` guard does. -/
def finalFatigue (m : MuscleMap) (l : DailyList) (t : String → Option String)
    (r : ℚ) (f : String → ℚ) (n : ℚ) (group : String) (dm : List (String × ℚ)) : ℚ :=
  match (runLoop f r dm).2, (groupDates dm).getLast? with
  | some _, some lastDate =>
      max 0 ((runLoop f r dm).1
        - (max 0 ((n - f (bestTimestamp m l t group lastDate)) / 3600000)) / r)
  | _, _ => (runLoop f r dm).1

/-- app.js lines 242–307: `computeMuscleFatigue`.  The returned object has
one key per muscle group of `muscleEvents` (keys are unique by
construction, so the per-group assignment `fatigue[group] = …` is exactly a
map over the entries). -/
def computeMuscleFatigue (m : MuscleMap) (l : DailyList) (t : String → Option String)
    (r : ℚ) (f : String → ℚ) (n : ℚ) : List (String × ℚ) :=
  (buildEvents m l).map (fun p => (p.1, finalFatigue m l t r f n p.1 p.2))

/- ── Per-set weight derivation — src/static/workouts.js lines 300–332 ── -/

/-- One raw set record of a completed training detail payload.  `finishedCount`,
`reps`, `count` are the candidate rep fields, `capacity` / `totalCapacity`
the candidate volume fields; `averageWeight` stands for the upstream
average-weight field that the rendering code never reads.  `none` models a
missing field. -/
structure SetRec where
  finishedCount : Option ℚ
  reps : Option ℚ
  count : Option ℚ
  capacity : Option ℚ
  totalCapacity : Option ℚ
  averageWeight : Option ℚ
deriving DecidableEq

/-- JS truthiness chain `a || b || …` over numeric fields: the first field
that is present and nonzero (0 and missing are both falsy). -/
def firstTruthy : List (Option ℚ) → Option ℚ
  | [] => none
  | none :: t => firstTruthy t
  | some x :: t => if x = 0 then firstTruthy t else some x

/-- workouts.js lines 309–310: `const cap = s.capacity || s.totalCapacity;
const vol = cap ? parseFloat(cap) : 0;`. -/
def setVolume (s : SetRec) : ℚ := (firstTruthy [s.capacity, s.totalCapacity]).getD 0

/-- workouts.js lines 304 and 317: `reps = s.finishedCount || s.reps || s.count
|| '-'` followed by `parseFloat(reps)`; `none` models the NaN obtained from
`parseFloat('-')`. -/
def setRepsNum (s : SetRec) : Option ℚ := firstTruthy [s.finishedCount, s.reps, s.count]

/-- workouts.js lines 315–324: the displayed total weight, `vol / repsNum`
when `vol > 0 && repsNum > 0`, otherwise the `'-'` placeholder (`none`). -/
def setTotalWeight (s : SetRec) : Option ℚ :=
  match setRepsNum s with
  | none => none
  | some rq => if 0 < setVolume s ∧ 0 < rq then some (setVolume s / rq) else none

/-- workouts.js lines 321–323: per-handle weight, total weight halved, shown
only for dual-handle exercises. -/
def setPerHandle (dual : Bool) (s : SetRec) : Option ℚ :=
  if dual then (setTotalWeight s).map (fun x => x / 2) else none

/- ── Weekly buckets — src/static/charts.js lines 3–38 ── -/

/-- One bucket of `buildWeekBuckets`: `start`/`stop` are the Monday and Sunday
epoch-day numbers (the source's `start`/`end` ISO strings), `days` the seven
day numbers, `volume` the accumulated volume, `isCurrent` the flag for the
bucket containing today. -/
structure WeekBucket where
  start : ℤ
  stop : ℤ
  days : List ℤ
  volume : ℚ
  isCurrent : Bool
deriving DecidableEq, Inhabited

/-- charts.js lines 3–30: `buildWeekBuckets(numWeeks)`.  `today` is the epoch
day of local midnight today; `getDay()` of epoch day `d` is `(d + 4) % 7`
(0 = Sunday); the loop runs `i = numWeeks-1 … 0`, so the bucket pushed at
position `j` has `i = numWeeks - 1 - j`.  The `todayStr >= days[0] &&
todayStr <= days[6]` comparison of ISO strings is the numeric comparison of
day numbers. -/
def buildWeekBuckets (today : ℤ) (numWeeks : ℕ) : List WeekBucket :=
  let dow := (today + 4) % 7
  let mondayOffset := (dow + 6) % 7
  let currentMonday := today - mondayOffset
  (List.range numWeeks).map
    (fun (j : ℕ) =>
      let i : ℤ := (numWeeks : ℤ) - 1 - (j : ℤ)
      let start := currentMonday - 7 * i
      let days := (List.range 7).map (fun (k : ℕ) => start + (k : ℤ))
      { start := start, stop := start + 6, days := days, volume := 0,
        isCurrent := decide (start ≤ today ∧ today ≤ start + 6) })

/-- charts.js lines 32–38: `aggregateWeekly(volMap, buckets)` adds
`volMap[day] || 0` over each bucket's seven days onto its volume. -/
def aggregateWeekly (volMap : ℤ → Option ℚ) (buckets : List WeekBucket) : List WeekBucket :=
  buckets.map
    (fun b => { b with volume := b.days.foldl (fun acc d => acc + (volMap d).getD 0) b.volume })

/- ── Concrete scenario data used by the claim theorems ── -/

/-- A muscle-group mapping with no configured exercise. -/
def emptyMuscleMap : MuscleMap := fun _ => none

/-- An empty `_exerciseLastTime` map. -/
def emptyLastTime : String → Option String := fun _ => none

/-- Mapping for the C1 scenario: `Bench Press` has primary `Chest`. -/
def c1Map : MuscleMap := fun name =>
  if name = "Bench Press" then some (.obj ⟨"Chest", "None", some 50⟩) else none

/-- Daily map for the C1 scenario: one Bench Press day on 2024-01-05. -/
def c1Daily : DailyList := [("Bench Press", [("2024-01-05", 100)])]

/-- Last-time map for the C1 scenario: the server's space-separated
`YYYY-MM-DD HH:MM:SS` finish timestamp on the same calendar date. -/
def c1LastTime : String → Option String := fun name =>
  if name = "Bench Press" then some "2024-01-05 18:30:00" else none

/-- Timestamp parser for the C1 scenario: mid-day of 2024-01-05 is instant 0,
the 18:30 finish time is 6.5 hours = 23400000 ms later. -/
def c1Parse : String → ℚ := fun s => if s = "2024-01-05T18:30:00" then 23400000 else 0

/-- C1: in `computeMuscleFatigue`, the final decay step is claimed to use the
hour-level finish timestamp from the last-time map whenever some exercise
mapped to the group has a last-time timestamp on the group's most recent
event date.  The code compares the raw `YYYY-MM-DD HH:MM:SS` string against
`YYYY-MM-DDT12:00:00`; since the code unit of `' '` is below that of `'T'`,
the guard `ft > bestTimestamp` is false for every space-separated
timestamp, so the mid-day fallback is used even though a matching
hour-level timestamp exists: here `bestTimestamp` stays at the 12:00 string
and the fatigue 48 h after mid-day is `1/2` (computed from 12:00), not the
value `1 - 41.5/96` that the 18:30 timestamp would give. -/
theorem claim1_midday_fallback_bug :
    getMuscleGroup c1Map "Bench Press" = "Chest"
    ∧ c1LastTime "Bench Press" = some "2024-01-05 18:30:00"
    ∧ ("2024-01-05 18:30:00" : String).take 10 = "2024-01-05"
    ∧ bestTimestamp c1Map c1Daily c1LastTime "Chest" "2024-01-05" = "2024-01-05T12:00:00"
    ∧ computeMuscleFatigue c1Map c1Daily c1LastTime 96 c1Parse 172800000
        = [("Chest", 1/2)] := by
  refine ⟨by decide, by decide, by decide, by decide, ?_⟩
  have hb : buildEvents c1Map c1Daily = [("Chest", [("2024-01-05", 1)])] := by decide
  have hbt : bestTimestamp c1Map c1Daily c1LastTime "Chest" "2024-01-05"
      = "2024-01-05T12:00:00" := by decide
  have hgd : groupDates [("2024-01-05", (1 : ℚ))] = ["2024-01-05"] := by decide
  have hpar : c1Parse "2024-01-05T12:00:00" = 0 := by decide
  simp only [computeMuscleFatigue, hb, List.map_cons, List.map_nil, finalFatigue, runLoop, hgd,
    List.foldl_cons, List.foldl_nil, fatigueStep, lookupD, alookup, addStep,
    List.getLast?_singleton, hbt, hpar]
  norm_num

/-- Daily map for the C5 counterexample: a Bench Press day whose stored
volume is 0. -/
def c5Daily : DailyList := [("Bench Press", [("2024-01-05", 0)])]

/-- C5 counterexample: the claim says an exercise-day with zero volume
contributes no fatigue event, but `computeMuscleFatigue` iterates the date
keys without consulting the stored volume, so a zero-volume day still
contributes a magnitude-1.0 event and leaves its group fully fatigued. -/
theorem claim5_counterexample :
    contribAt (buildEvents emptyMuscleMap c5Daily) "Other" "2024-01-05" = some 1
    ∧ computeMuscleFatigue emptyMuscleMap c5Daily emptyLastTime 96 (fun _ => 0) 0
        = [("Other", 1)] := by
  refine ⟨by decide, ?_⟩
  have hb : buildEvents emptyMuscleMap c5Daily = [("Other", [("2024-01-05", 1)])] := by decide
  have hbt : bestTimestamp emptyMuscleMap c5Daily emptyLastTime "Other" "2024-01-05"
      = "2024-01-05T12:00:00" := by decide
  have hgd : groupDates [("2024-01-05", (1 : ℚ))] = ["2024-01-05"] := by decide
  simp only [computeMuscleFatigue, hb, List.map_cons, List.map_nil, finalFatigue, runLoop, hgd,
    List.foldl_cons, List.foldl_nil, fatigueStep, lookupD, alookup, addStep, hbt,
    List.getLast?_singleton]
  norm_num

/-- Mapping for the C9 counterexample: `Row` is mapped by a legacy
plain-string entry `"Back"`. -/
def c9LegacyMap : MuscleMap := fun name =>
  if name = "Row" then some (.legacy "Back") else none

/-- C9 counterexample: for an exercise mapped by a legacy plain-string entry,
`getMuscleGroup` returns the stored string, not `'Other'` as the claim
states. -/
theorem claim9_counterexample :
    getMuscleGroup c9LegacyMap "Row" = "Back" ∧ ("Back" : String) ≠ "Other" := by
  exact ⟨by decide, by decide⟩

/-- C2: with `recovery_hours = 96`, two same-day primary events (magnitude 1.0
each) on one muscle group merge into a single 2.0 contribution for that
date, and the running fatigue right after that day is processed is capped
to exactly 1.0, not 2.0. -/
theorem claim2_same_day_saturation (m : MuscleMap) (e1 e2 d g : String) (v1 v2 : ℚ)
    (f : String → ℚ)
    (h1 : getMuscleGroup m e1 = g) (h2 : getMuscleGroup m e2 = g)
    (hs1 : getSecondaryMuscle m e1 = "None") (hs2 : getSecondaryMuscle m e2 = "None") :
    alookup (buildEvents m [(e1, [(d, v1)]), (e2, [(d, v2)])]) g = some [(d, 2)]
    ∧ (runLoop f 96 [(d, 2)]).1 = 1 := by
  constructor
  · simp [buildEvents, exerciseStep, h1, h2, hs1, hs2, addEvent, updAdd, alookup]
    try norm_num
  · simp [runLoop, groupDates, sortKeys, orderedInsertJs, fatigueStep, lookupD, alookup, addStep]
    try norm_num

/-- Mapping for the C2 witness: two chest exercises, no secondary muscle. -/
def c2Map : MuscleMap := fun name =>
  if name = "A" ∨ name = "B" then some (.obj ⟨"Chest", "None", some 50⟩) else none

/-- C2 witness at a concrete input. -/
theorem claim2_witness :
    alookup (buildEvents c2Map [("A", [("2024-01-05", 10)]), ("B", [("2024-01-05", 20)])]) "Chest"
      = some [("2024-01-05", 2)]
    ∧ (runLoop (fun _ => 0) 96 [("2024-01-05", 2)]).1 = 1 :=
  claim2_same_day_saturation c2Map "A" "B" "2024-01-05" "Chest" 10 20 (fun _ => 0)
    (by decide) (by decide) (by decide) (by decide)

/-- C3: a muscle group with a single primary event of magnitude 1.0, queried
48 hours after the event's (mid-day) timestamp with `recovery_hours = 96`,
yields fatigue exactly 1/2: decay is linear at rate `1/recovery_hours` per
hour and floored at 0. -/
theorem claim3_linear_decay (m : MuscleMap) (e d g : String) (v : ℚ)
    (t : String → Option String) (f : String → ℚ)
    (h1 : getMuscleGroup m e = g) (hs : getSecondaryMuscle m e = "None")
    (ht : t e = none) :
    computeMuscleFatigue m [(e, [(d, v)])] t 96 f (f (d ++ "T12:00:00") + 48 * 3600000)
      = [(g, 1/2)] := by
  simp [computeMuscleFatigue, buildEvents, exerciseStep, h1, hs, addEvent, updAdd,
    finalFatigue, runLoop, groupDates, sortKeys, orderedInsertJs, fatigueStep, lookupD,
    alookup, addStep, bestTimestamp, ht]
  norm_num

/-- Mapping for the C3 witness. -/
def c3Map : MuscleMap := fun name =>
  if name = "Bench Press" then some (.obj ⟨"Chest", "None", some 50⟩) else none

/-- C3 witness at a concrete input: fatigue 48 h after the event is 1/2. -/
theorem claim3_witness :
    computeMuscleFatigue c3Map [("Bench Press", [("2024-01-05", 10)])] emptyLastTime 96
      (fun _ => 0) (48 * 3600000) = [("Chest", 1/2)] := by
  have h := claim3_linear_decay c3Map "Bench Press" "2024-01-05" "Chest" 10 emptyLastTime
    (fun _ => 0) (by decide) (by decide) rfl
  simpa using h

/-- C4: an exercise with secondary muscle `Back` at 50 % adds a magnitude-0.5
contribution to Back's event on each day it is performed; it stacks
additively with a same-day primary contribution (total 3/2) before the 1.0
cap is applied when the day is processed. -/
theorem claim4_secondary_stacking (m : MuscleMap) (eP eS d : String) (vP vS : ℚ)
    (f : String → ℚ)
    (hP : getMuscleGroup m eP = "Back") (hPs : getSecondaryMuscle m eP = "None")
    (hS : getMuscleGroup m eS ≠ "Back") (hSs : getSecondaryMuscle m eS = "Back")
    (hSp : getSecondaryPercent m eS = 50) :
    alookup (buildEvents m [(eP, [(d, vP)]), (eS, [(d, vS)])]) "Back" = some [(d, 3/2)]
    ∧ (runLoop f 96 [(d, 3/2)]).1 = 1 := by
  constructor
  · simp [buildEvents, exerciseStep, hP, hPs, hSs, hSp, addEvent, updAdd, alookup, Ne.symm hS]
    norm_num
  · simp [runLoop, groupDates, sortKeys, orderedInsertJs, fatigueStep, lookupD, alookup, addStep]
    norm_num

/-- Mapping for the C4 witness: a primary-Back exercise plus a Biceps exercise
with secondary Back at 50 %. -/
def c4Map : MuscleMap := fun name =>
  if name = "Barbell Row" then some (.obj ⟨"Back", "None", some 50⟩)
  else if name = "Pulldown" then some (.obj ⟨"Biceps", "Back", some 50⟩) else none

/-- C4 witness at a concrete input. -/
theorem claim4_witness :
    alookup (buildEvents c4Map
        [("Barbell Row", [("2024-01-05", 10)]), ("Pulldown", [("2024-01-05", 20)])]) "Back"
      = some [("2024-01-05", 3/2)]
    ∧ (runLoop (fun _ => 0) 96 [("2024-01-05", 3/2)]).1 = 1 :=
  claim4_secondary_stacking c4Map "Barbell Row" "Pulldown" "2024-01-05" 10 20 (fun _ => 0)
    (by decide) (by decide) (by decide) (by decide) (by decide)

/-- C8: the displayed total weight of a set is `volume / reps` whenever both
are positive (per-handle weight is half of it for dual-handle exercises);
the upstream average-weight field is never consulted; and when volume or
reps is not positive the weight is the `'-'` placeholder instead of a
computed number. -/
theorem claim8_weight_from_volume (s : SetRec) :
    (∀ rq, setRepsNum s = some rq → 0 < setVolume s → 0 < rq →
      setTotalWeight s = some (setVolume s / rq)
      ∧ setPerHandle true s = some (setVolume s / rq / 2))
    ∧ (∀ a, setTotalWeight { s with averageWeight := a } = setTotalWeight s
        ∧ setPerHandle true { s with averageWeight := a } = setPerHandle true s)
    ∧ (setRepsNum s = none → setTotalWeight s = none)
    ∧ (∀ rq, setRepsNum s = some rq → ¬(0 < setVolume s ∧ 0 < rq) →
        setTotalWeight s = none) := by
  refine ⟨?_, ?_, ?_, ?_⟩
  · intro rq h hv hr
    constructor
    · simp [setTotalWeight, h, hv, hr]
    · simp [setPerHandle, setTotalWeight, h, hv, hr]
  · intro a
    exact ⟨rfl, rfl⟩
  · intro h
    simp [setTotalWeight, h]
  · intro rq h hc
    simp [setTotalWeight, h, hc]

/-- Concrete set record for the C8 witness: 10 finished reps, capacity 200,
with a (deliberately disagreeing) average-weight field. -/
def c8Set : SetRec := ⟨some 10, none, none, some 200, none, some 999⟩

/-- C8 witness at a concrete input: 200 kg volume over 10 reps shows 20 kg
total, 10 kg per handle, ignoring the 999 average-weight field. -/
theorem claim8_witness :
    setTotalWeight c8Set = some 20 ∧ setPerHandle true c8Set = some 10 := by
  have hv : setVolume c8Set = 200 := by decide
  have h := (claim8_weight_from_volume c8Set).1 10 (by decide) (by rw [hv]; norm_num)
    (by norm_num)
  rw [hv] at h
  norm_num at h
  exact h

/-- Folding `acc + g d` over a list is the initial value plus the sum of the
mapped list (the accumulation pattern of `aggregateWeekly`). -/
theorem foldl_add_eq_sum (g : ℤ → ℚ) (l : List ℤ) (a : ℚ) :
    l.foldl (fun acc d => acc + g d) a = a + (l.map g).sum := by
  induction l generalizing a with
  | nil => simp
  | cons h t ih => simp [ih]; ring

/-- C10: `buildWeekBuckets` returns exactly `numWeeks` buckets of 7
consecutive days each, every bucket starting on a Monday; the last bucket
contains today and is the only one marked current; `aggregateWeekly` then
sets each bucket's volume to the sum of the volume map over its days,
absent dates counting as 0. -/
theorem claim10_week_buckets (today : ℤ) (w : ℕ) (v : ℤ → Option ℚ)
    (ht : 0 ≤ today) (hw : 1 ≤ w) :
    (buildWeekBuckets today w).length = w
    ∧ (∀ b ∈ buildWeekBuckets today w,
        b.days = (List.range 7).map (fun (k : ℕ) => b.start + (k : ℤ))
        ∧ b.stop = b.start + 6 ∧ (b.start + 4) % 7 = 1 ∧ b.volume = 0)
    ∧ (∀ j, j < w →
        (((buildWeekBuckets today w).getD j default).isCurrent = true ↔ j = w - 1))
    ∧ (∀ b, (buildWeekBuckets today w).getLast? = some b →
        today ∈ b.days ∧ b.isCurrent = true)
    ∧ (∀ b ∈ aggregateWeekly v (buildWeekBuckets today w),
        b.volume = (b.days.map (fun d => (v d).getD 0)).sum) := by
  refine ⟨by simp [buildWeekBuckets], ?_, ?_, ?_, ?_⟩
  · intro b hb
    simp only [buildWeekBuckets, List.mem_map, List.mem_range] at hb
    obtain ⟨j, hj, rfl⟩ := hb
    refine ⟨rfl, rfl, ?_, rfl⟩
    dsimp only
    omega
  · intro j hj
    have hget : (buildWeekBuckets today w).getD j default
        = (buildWeekBuckets today w).get ⟨j, by simpa [buildWeekBuckets] using hj⟩ := by
      simp [List.getD_eq_getElem?_getD, List.getElem?_eq_getElem, hj, buildWeekBuckets]
    rw [hget]
    simp only [List.get_eq_getElem, buildWeekBuckets, List.getElem_map, List.getElem_range]
    simp only [decide_eq_true_eq]
    omega
  · intro b hb
    have hlen : (buildWeekBuckets today w).length = w := by simp [buildWeekBuckets]
    rw [List.getLast?_eq_getElem?] at hb
    rw [hlen] at hb
    have hlt : w - 1 < w := by omega
    rw [List.getElem?_eq_getElem (by simpa [buildWeekBuckets] using hlt)] at hb
    have hb' := hb
    simp only [buildWeekBuckets, List.getElem_map, List.getElem_range, Option.some_inj] at hb'
    subst hb'
    constructor
    · simp only [List.mem_map, List.mem_range]
      refine ⟨(((today + 4) % 7 + 6) % 7).toNat, by omega, by omega⟩
    · simp only [decide_eq_true_eq]
      omega
  · intro b hb
    simp only [aggregateWeekly, List.mem_map] at hb
    obtain ⟨b0, hb0, rfl⟩ := hb
    simp only [buildWeekBuckets, List.mem_map, List.mem_range] at hb0
    obtain ⟨j, hj, rfl⟩ := hb0
    simp [foldl_add_eq_sum]

/-- C10 witness at a concrete input (epoch day 20000, three weeks). -/
theorem claim10_witness : (buildWeekBuckets 20000 3).length = 3 :=
  (claim10_week_buckets 20000 3 (fun _ => some 1) (by norm_num) (by norm_num)).1

/- ── Association-list lemmas for the fatigue engine ── -/

/-- Lookup after `updAdd`: the updated key holds its old value (default 0)
plus `v`; every other key is untouched. -/
theorem alookup_updAdd (l : List (String × ℚ)) (k : String) (v : ℚ) (k' : String) :
    alookup (updAdd l k v) k' =
      if k = k' then some ((alookup l k).getD 0 + v) else alookup l k' := by
  induction l with
  | nil =>
    by_cases h : k = k' <;> simp [updAdd, alookup, h]
  | cons p t ih =>
    obtain ⟨k₀, v₀⟩ := p
    by_cases h : k₀ = k
    · subst h
      by_cases h' : k₀ = k' <;> simp [updAdd, alookup, h']
    · by_cases h' : k = k'
      · subst h'
        simp [updAdd, alookup, h, ih]
      · have h₃ : k' ≠ k := fun he => h' he.symm
        by_cases h'' : k₀ = k' <;> simp [updAdd, alookup, h, h', h'', h₃, ih]

/-- Lookup after `addEvent`: the updated group holds `updAdd` of its old date
map (default empty); every other group is untouched. -/
theorem alookup_addEvent (me : List (String × List (String × ℚ))) (g d : String) (v : ℚ)
    (g' : String) :
    alookup (addEvent me g d v) g' =
      if g = g' then some (updAdd ((alookup me g).getD []) d v) else alookup me g' := by
  induction me with
  | nil =>
    by_cases h : g = g' <;> simp [addEvent, alookup, h]
  | cons p t ih =>
    obtain ⟨g₀, dm₀⟩ := p
    by_cases h : g₀ = g
    · subst h
      by_cases h' : g₀ = g' <;> simp [addEvent, alookup, h']
    · by_cases h' : g = g'
      · subst h'
        simp [addEvent, alookup, h, ih]
      · have h₃ : g' ≠ g := fun he => h' he.symm
        by_cases h'' : g₀ = g' <;> simp [addEvent, alookup, h, h', h'', h₃, ih]

/-- If the queried group exists, `contribAt` is lookup in its date map with
default empty. -/
theorem contribAt_eq_getD (me : List (String × List (String × ℚ))) (g d : String) :
    contribAt me g d = alookup ((alookup me g).getD []) d := by
  unfold contribAt
  cases alookup me g <;> simp [alookup]

/-- `contribAt` after `addEvent`: the touched (group, date) cell gets old
value (default 0) plus `v`; all other cells are untouched. -/
theorem contribAt_addEvent (me : List (String × List (String × ℚ))) (g d : String) (v : ℚ)
    (g' d' : String) :
    contribAt (addEvent me g d v) g' d' =
      if g = g' ∧ d = d' then some ((contribAt me g' d').getD 0 + v)
      else contribAt me g' d' := by
  rw [contribAt_eq_getD, alookup_addEvent]
  by_cases hg : g = g'
  · subst hg
    simp only [if_pos rfl, Option.getD_some, alookup_updAdd]
    by_cases hd : d = d'
    · subst hd
      simp [alookup_updAdd, contribAt_eq_getD]
    · simp [hd, alookup_updAdd, contribAt_eq_getD]
  · simp [hg, contribAt_eq_getD]

/-- A generic foldl invariant-preservation principle. -/
theorem foldl_preserve {α σ : Type} (P : σ → Prop) (step : σ → α → σ)
    (hstep : ∀ s a, P s → P (step s a)) :
    ∀ (l : List α) (s : σ), P s → P (l.foldl step s) := by
  intro l
  induction l with
  | nil => intro s hs; exact hs
  | cons a t ih => intro s hs; exact ih _ (hstep _ _ hs)

/-- A successful `alookup` returns a pair of the list. -/
theorem alookup_mem {α : Type} (l : List (String × α)) (k : String) (v : α)
    (h : alookup l k = some v) : (k, v) ∈ l := by
  induction l with
  | nil => simp [alookup] at h
  | cons p t ih =>
    obtain ⟨k₀, v₀⟩ := p
    by_cases hk : k₀ = k
    · subst hk
      simp [alookup] at h
      simp [h]
    · simp [alookup, hk] at h
      exact List.mem_cons_of_mem _ (ih h)

/-- Group membership after `addEvent`: the keys are the old keys plus `g`. -/
theorem mem_keys_addEvent (me : List (String × List (String × ℚ))) (g d : String) (v : ℚ)
    (x : String) :
    x ∈ (addEvent me g d v).map Prod.fst ↔ x ∈ me.map Prod.fst ∨ x = g := by
  induction me with
  | nil => simp [addEvent, eq_comm]
  | cons p t ih =>
    obtain ⟨g₀, dm₀⟩ := p
    by_cases h : g₀ = g <;> simp [addEvent, h, ih] <;> tauto

/-- Group membership after one `exerciseStep`: the keys are the old keys plus
the primary group plus (when the guard passes) the secondary group. -/
theorem mem_keys_exerciseStep (m : MuscleMap) (ex : String)
    (me : List (String × List (String × ℚ))) (d x : String) :
    x ∈ (exerciseStep m ex me d).map Prod.fst ↔
      x ∈ me.map Prod.fst ∨ x = getMuscleGroup m ex
      ∨ (secondaryActive m ex ∧ x = getSecondaryMuscle m ex) := by
  unfold exerciseStep secondaryActive
  by_cases h : getSecondaryMuscle m ex ≠ "" ∧ getSecondaryMuscle m ex ≠ "None"
  · simp only [if_pos h, mem_keys_addEvent]
    tauto
  · simp only [if_neg h, mem_keys_addEvent]
    tauto

/-- Group membership after folding `exerciseStep` over one exercise's date
map: a new key appears exactly when the date map is nonempty and the key is
the primary (or active secondary) muscle of the exercise. -/
theorem mem_keys_dayFold (m : MuscleMap) (ex : String) (dm : List (String × ℚ))
    (me : List (String × List (String × ℚ))) (x : String) :
    x ∈ (dm.foldl (fun me' q => exerciseStep m ex me' q.1) me).map Prod.fst ↔
      x ∈ me.map Prod.fst ∨ (dm ≠ [] ∧ (x = getMuscleGroup m ex
        ∨ (secondaryActive m ex ∧ x = getSecondaryMuscle m ex))) := by
  induction dm generalizing me with
  | nil => simp
  | cons q t ih =>
    simp only [List.foldl_cons, ih, mem_keys_exerciseStep, ne_eq, reduceCtorEq,
      not_false_eq_true, true_and]
    tauto

/-- Group membership in `buildEvents`: a muscle group appears exactly when
some exercise with a nonempty daily map has it as primary or active
secondary muscle. -/
theorem mem_keys_buildEvents (m : MuscleMap) (l : DailyList) (x : String) :
    x ∈ (buildEvents m l).map Prod.fst ↔
      ∃ p ∈ l, p.2 ≠ [] ∧ (x = getMuscleGroup m p.1
        ∨ (secondaryActive m p.1 ∧ x = getSecondaryMuscle m p.1)) := by
  have main : ∀ (ll : DailyList) (me : List (String × List (String × ℚ))),
      x ∈ (ll.foldl (fun me p => p.2.foldl (fun me' q => exerciseStep m p.1 me' q.1) me)
          me).map Prod.fst ↔
        x ∈ me.map Prod.fst ∨ ∃ p ∈ ll, p.2 ≠ [] ∧ (x = getMuscleGroup m p.1
          ∨ (secondaryActive m p.1 ∧ x = getSecondaryMuscle m p.1)) := by
    intro ll
    induction ll with
    | nil => simp
    | cons p t ih =>
      intro me
      simp only [List.foldl_cons, ih, mem_keys_dayFold, List.mem_cons]
      constructor
      · rintro ((hme | hp) | ⟨q, hq, hc⟩)
        · exact Or.inl hme
        · exact Or.inr ⟨p, Or.inl rfl, hp⟩
        · exact Or.inr ⟨q, Or.inr hq, hc⟩
      · rintro (hme | ⟨q, (rfl | hq), hc⟩)
        · exact Or.inl (Or.inl hme)
        · exact Or.inl (Or.inr hc)
        · exact Or.inr ⟨q, hq, hc⟩
  simpa using main l []

/-- All stored contributions of an event map are nonnegative. -/
def eventsNonneg (me : List (String × List (String × ℚ))) : Prop :=
  ∀ p ∈ me, ∀ q ∈ p.2, 0 ≤ q.2

/-- `updAdd` keeps all values nonnegative when the added value is. -/
theorem updAdd_nonneg (l : List (String × ℚ)) (k : String) (v : ℚ)
    (hl : ∀ q ∈ l, 0 ≤ q.2) (hv : 0 ≤ v) : ∀ q ∈ updAdd l k v, 0 ≤ q.2 := by
  induction l with
  | nil =>
    intro q hq
    simp [updAdd] at hq
    simp [hq, hv]
  | cons p t ih =>
    obtain ⟨k₀, v₀⟩ := p
    by_cases h : k₀ = k
    · intro q hq
      simp [updAdd, h] at hq
      rcases hq with hq | hq
      · have h₀ : (0:ℚ) ≤ v₀ := hl (k, v₀) (by simp [h])
        simp [hq]
        positivity
      · exact hl q (List.mem_cons_of_mem _ hq)
    · intro q hq
      simp only [updAdd, if_neg h, List.mem_cons] at hq
      rcases hq with hq | hq
      · exact hl q (by simp [hq])
      · exact ih (fun r hr => hl r (List.mem_cons_of_mem _ hr)) q hq

/-- `addEvent` preserves `eventsNonneg` when the added magnitude is
nonnegative. -/
theorem addEvent_nonneg (me : List (String × List (String × ℚ))) (g d : String) (v : ℚ)
    (hme : eventsNonneg me) (hv : 0 ≤ v) : eventsNonneg (addEvent me g d v) := by
  induction me with
  | nil =>
    intro p hp q hq
    simp [addEvent] at hp
    subst hp
    exact updAdd_nonneg [] d v (by simp) hv q hq
  | cons p0 t ih =>
    obtain ⟨g₀, dm₀⟩ := p0
    by_cases h : g₀ = g
    · intro p hp q hq
      simp only [addEvent, if_pos h, List.mem_cons] at hp
      rcases hp with hp | hp
      · subst hp
        exact updAdd_nonneg dm₀ d v (fun r hr => hme (g₀, dm₀) (by simp) r hr) hv q hq
      · exact hme p (List.mem_cons_of_mem _ hp) q hq
    · intro p hp q hq
      simp only [addEvent, if_neg h, List.mem_cons] at hp
      rcases hp with hp | hp
      · exact hme p (by simp [hp]) q hq
      · exact ih (fun r hr s hs => hme r (List.mem_cons_of_mem _ hr) s hs) p hp q hq

/-- `exerciseStep` preserves `eventsNonneg` when the secondary percent is
nonnegative. -/
theorem exerciseStep_nonneg (m : MuscleMap) (ex : String)
    (me : List (String × List (String × ℚ))) (d : String)
    (hme : eventsNonneg me) (hpct : 0 ≤ getSecondaryPercent m ex) :
    eventsNonneg (exerciseStep m ex me d) := by
  unfold exerciseStep
  by_cases h : getSecondaryMuscle m ex ≠ "" ∧ getSecondaryMuscle m ex ≠ "None"
  · simp only [if_pos h]
    exact addEvent_nonneg _ _ _ _ (addEvent_nonneg me _ d 1 hme (by norm_num))
      (by positivity)
  · simp only [if_neg h]
    exact addEvent_nonneg me _ d 1 hme (by norm_num)

/-- All contributions built by `buildEvents` are nonnegative, provided every
configured secondary percent is nonnegative. -/
theorem buildEvents_nonneg (m : MuscleMap) (l : DailyList)
    (hpct : ∀ e, 0 ≤ getSecondaryPercent m e) : eventsNonneg (buildEvents m l) := by
  unfold buildEvents
  refine foldl_preserve eventsNonneg _ ?_ l [] ?_
  · intro me p hme
    exact foldl_preserve eventsNonneg _
      (fun me' q hme' => exerciseStep_nonneg m p.1 me' q.1 hme' (hpct p.1)) p.2 me hme
  · intro p hp
    simp at hp

/-- The loop state of `runLoop` keeps its fatigue component inside `[0, 1]`
whenever all stored contributions are nonnegative. -/
theorem runLoop_bounds (f : String → ℚ) (r : ℚ) (dm : List (String × ℚ))
    (hdm : ∀ q ∈ dm, 0 ≤ q.2) :
    0 ≤ (runLoop f r dm).1 ∧ (runLoop f r dm).1 ≤ 1 := by
  unfold runLoop
  refine foldl_preserve (fun st => 0 ≤ st.1 ∧ st.1 ≤ 1) (fatigueStep f r dm) ?_
    (groupDates dm) (0, none) (by norm_num)
  intro st d hst
  have hcontrib : 0 ≤ lookupD dm d := by
    unfold lookupD
    cases hal : alookup dm d with
    | none => simp
    | some c =>
      have := hdm (d, c) (alookup_mem dm d c hal)
      simpa using this
  have hcur1 : 0 ≤ (match st.2 with
      | none => st.1
      | some lastMs => decayStep r st.1 lastMs (f (d ++ "T12:00:00"))) := by
    cases st.2 with
    | none => exact hst.1
    | some lastMs => exact le_max_left 0 _
  constructor
  · simp only [fatigueStep, addStep]
    exact le_min (by norm_num) (by positivity)
  · simp only [fatigueStep, addStep]
    exact min_le_left 1 _

/-- C6: every fatigue value returned by `computeMuscleFatigue` lies in
`[0, 1]` (for secondary percents in `[0, 100]` and positive recovery
hours); moreover each decay step maps `[0, 1]` into `[0, 1]` when time is
nondecreasing, and each capped addition of a nonnegative contribution
lands in `[0, 1]`. -/
theorem claim6_fatigue_in_unit_interval (m : MuscleMap) (l : DailyList)
    (t : String → Option String) (r : ℚ) (f : String → ℚ) (n : ℚ)
    (hpct : ∀ e, 0 ≤ getSecondaryPercent m e ∧ getSecondaryPercent m e ≤ 100)
    (hr : 0 < r) :
    (∀ p ∈ computeMuscleFatigue m l t r f n, 0 ≤ p.2 ∧ p.2 ≤ 1)
    ∧ (∀ cur lm dm, 0 ≤ cur → cur ≤ 1 → lm ≤ dm →
        0 ≤ decayStep r cur lm dm ∧ decayStep r cur lm dm ≤ 1)
    ∧ (∀ cur c, 0 ≤ cur → 0 ≤ c → 0 ≤ addStep cur c ∧ addStep cur c ≤ 1) := by
  refine ⟨?_, ?_, ?_⟩
  · intro p hp
    unfold computeMuscleFatigue at hp
    obtain ⟨p0, hp0, rfl⟩ := List.mem_map.1 hp
    have hdm : ∀ q ∈ p0.2, 0 ≤ q.2 :=
      buildEvents_nonneg m l (fun e => (hpct e).1) p0 hp0
    have hrl := runLoop_bounds f r p0.2 hdm
    show 0 ≤ finalFatigue m l t r f n p0.1 p0.2 ∧ finalFatigue m l t r f n p0.1 p0.2 ≤ 1
    unfold finalFatigue
    split
    · rename_i v0 lastDate h1 h2
      constructor
      · exact le_max_left 0 _
      · refine max_le (by norm_num) ?_
        have hq : (0:ℚ) ≤ (max 0 ((n - f (bestTimestamp m l t p0.1 lastDate)) / 3600000)) / r := by
          have h0 : (0:ℚ) ≤ max 0 ((n - f (bestTimestamp m l t p0.1 lastDate)) / 3600000) :=
            le_max_left 0 _
          positivity
        linarith [hrl.2]
    · exact hrl
  · intro cur lm dm h0 h1 hle
    unfold decayStep
    constructor
    · exact le_max_left 0 _
    · refine max_le (by norm_num) ?_
      have hx : (0:ℚ) ≤ (dm - lm) / 3600000 / r := by
        have hdl : (0:ℚ) ≤ dm - lm := sub_nonneg.2 hle
        positivity
      linarith
  · intro cur c h0 hc
    exact ⟨le_min (by norm_num) (by positivity), min_le_left 1 _⟩

/-- C6 witness: the theorem applied at a concrete input — a capped addition
from fatigue 0 of a magnitude-1 contribution stays in `[0, 1]`. -/
theorem claim6_witness : 0 ≤ addStep 0 1 ∧ addStep 0 1 ≤ 1 :=
  (claim6_fatigue_in_unit_interval emptyMuscleMap [] emptyLastTime 96 (fun _ => 0) 0
    (fun e => by norm_num [getSecondaryPercent, emptyMuscleMap]) (by norm_num)).2.2 0 1
    le_rfl zero_le_one

/-- Daily map for the C7 present-with-zero scenario. -/
def c7Daily : DailyList := [("Bench Press", [("2024-01-05", 5)])]

/-- C7: the returned fatigue object has a key for a muscle group exactly when
some exercise with a nonempty daily map targets it as primary or active
secondary muscle (so a never-trained group is absent); and a group whose
events have fully decayed is still present with value 0, as the concrete
conjunct shows 200 hours after a single event with 96-hour recovery. -/
theorem claim7_key_iff_events (m : MuscleMap) (l : DailyList) (t : String → Option String)
    (r : ℚ) (f : String → ℚ) (n : ℚ) (g : String) :
    (g ∈ (computeMuscleFatigue m l t r f n).map Prod.fst ↔
      ∃ p ∈ l, p.2 ≠ [] ∧ (g = getMuscleGroup m p.1
        ∨ (secondaryActive m p.1 ∧ g = getSecondaryMuscle m p.1)))
    ∧ computeMuscleFatigue emptyMuscleMap c7Daily emptyLastTime 96 (fun _ => 0) 720000000
        = [("Other", 0)] := by
  constructor
  · rw [← mem_keys_buildEvents]
    unfold computeMuscleFatigue
    simp [List.map_map, Function.comp]
  · have hb : buildEvents emptyMuscleMap c7Daily = [("Other", [("2024-01-05", 1)])] := by
      decide
    have hbt : bestTimestamp emptyMuscleMap c7Daily emptyLastTime "Other" "2024-01-05"
        = "2024-01-05T12:00:00" := by decide
    have hgd : groupDates [("2024-01-05", (1 : ℚ))] = ["2024-01-05"] := by decide
    simp only [computeMuscleFatigue, hb, List.map_cons, List.map_nil, finalFatigue, runLoop,
      hgd, List.foldl_cons, List.foldl_nil, fatigueStep, lookupD, alookup, addStep,
      List.getLast?_singleton, hbt]
    norm_num

/-- `exerciseStep` on date `d` leaves the contribution cell of any other date
unchanged. -/
theorem contribAt_exerciseStep_other (m : MuscleMap) (ex : String)
    (me : List (String × List (String × ℚ))) (d g' d' : String) (hd : d ≠ d') :
    contribAt (exerciseStep m ex me d) g' d' = contribAt me g' d' := by
  unfold exerciseStep
  by_cases h : getSecondaryMuscle m ex ≠ "" ∧ getSecondaryMuscle m ex ≠ "None" <;>
    simp [h, contribAt_addEvent, hd]

/-- Folding `exerciseStep` over a date map leaves any date that is not a key
of the map unchanged. -/
theorem contribAt_dayFold_not_mem (m : MuscleMap) (ex : String) (dm : List (String × ℚ))
    (me : List (String × List (String × ℚ))) (g' d' : String)
    (hd : d' ∉ dm.map Prod.fst) :
    contribAt (dm.foldl (fun me' q => exerciseStep m ex me' q.1) me) g' d'
      = contribAt me g' d' := by
  induction dm generalizing me with
  | nil => rfl
  | cons q tl ih =>
    simp only [List.map_cons, List.mem_cons] at hd
    push_neg at hd
    simp only [List.foldl_cons]
    rw [ih _ hd.2, contribAt_exerciseStep_other m ex me q.1 g' d' (Ne.symm hd.1)]

/-- For an exercise with no secondary muscle, folding `exerciseStep` over a
duplicate-free date map adds exactly 1 to its primary group's cell of every
date key present. -/
theorem contribAt_dayFold_primary (m : MuscleMap) (ex : String)
    (hsec : getSecondaryMuscle m ex = "None") (dm : List (String × ℚ))
    (me : List (String × List (String × ℚ))) (d : String)
    (hnd : (dm.map Prod.fst).Nodup) (hd : d ∈ dm.map Prod.fst) :
    contribAt (dm.foldl (fun me' q => exerciseStep m ex me' q.1) me) (getMuscleGroup m ex) d
      = some ((contribAt me (getMuscleGroup m ex) d).getD 0 + 1) := by
  induction dm generalizing me with
  | nil => simp at hd
  | cons q tl ih =>
    obtain ⟨qd, qv⟩ := q
    simp only [List.map_cons, List.mem_cons] at hd
    simp only [List.map_cons, List.nodup_cons] at hnd
    simp only [List.foldl_cons]
    by_cases hq : d = qd
    · subst hq
      rw [contribAt_dayFold_not_mem m ex tl _ _ _ hnd.1]
      unfold exerciseStep
      simp [hsec, contribAt_addEvent]
    · have hd' : d ∈ tl.map Prod.fst := hd.resolve_left hq
      rw [ih _ hnd.2 hd',
        contribAt_exerciseStep_other m ex me qd (getMuscleGroup m ex) d (Ne.symm hq)]

/-- C5 (amended): for an exercise (without secondary muscle) and a
duplicate-free daily map, a magnitude-1.0 event is recorded for its primary
group at a date exactly when that date is a key of the map — the stored
volume value is never consulted, so a zero-volume day present in the map
still contributes. -/
theorem claim5_event_per_date_key (m : MuscleMap) (e d : String) (dm : List (String × ℚ))
    (hsec : getSecondaryMuscle m e = "None") (hnd : (dm.map Prod.fst).Nodup) :
    contribAt (buildEvents m [(e, dm)]) (getMuscleGroup m e) d
      = if d ∈ dm.map Prod.fst then some 1 else none := by
  have hb : buildEvents m [(e, dm)] = dm.foldl (fun me' q => exerciseStep m e me' q.1) [] := by
    simp [buildEvents]
  rw [hb]
  by_cases hd : d ∈ dm.map Prod.fst
  · rw [if_pos hd, contribAt_dayFold_primary m e hsec dm [] d hnd hd]
    simp [contribAt, alookup]
  · rw [if_neg hd, contribAt_dayFold_not_mem m e dm [] _ _ hd]
    simp [contribAt, alookup]

/-- C5 (amended) witness at a concrete input: the key date maps to a
magnitude-1 event, an absent date to none. -/
theorem claim5_amended_witness :
    contribAt (buildEvents emptyMuscleMap [("Squat", [("2024-02-02", 7)])]) "Other" "2024-02-02"
      = some 1
    ∧ contribAt (buildEvents emptyMuscleMap [("Squat", [("2024-02-02", 7)])]) "Other" "2024-03-03"
      = none := by
  have h1 := claim5_event_per_date_key emptyMuscleMap "Squat" "2024-02-02"
    [("2024-02-02", 7)] (by decide) (by decide)
  have h2 := claim5_event_per_date_key emptyMuscleMap "Squat" "2024-03-03"
    [("2024-02-02", 7)] (by decide) (by decide)
  constructor
  · simpa [getMuscleGroup, emptyMuscleMap] using h1
  · simpa [getMuscleGroup, emptyMuscleMap] using h2

/-- C9 (amended): an exercise absent from the mapping gets primary `Other`,
secondary `None`, percent 50, and all its events go to `Other` with
magnitude 1.0 and no secondary event; an exercise mapped by a legacy
plain-string entry keeps that string as its primary group (not `Other`)
while the secondary getters return the same `None` / 50 defaults. -/
theorem claim9_unmapped_defaults (m : MuscleMap) (e : String) :
    (m e = none → getMuscleGroup m e = "Other" ∧ getSecondaryMuscle m e = "None"
      ∧ getSecondaryPercent m e = 50
      ∧ ∀ dm : List (String × ℚ), buildEvents m [(e, dm)]
          = dm.foldl (fun me q => addEvent me "Other" q.1 1) [])
    ∧ (∀ s, s ≠ "" → m e = some (.legacy s) →
        getMuscleGroup m e = s ∧ getSecondaryMuscle m e = "None"
        ∧ getSecondaryPercent m e = 50
        ∧ ∀ dm : List (String × ℚ), buildEvents m [(e, dm)]
            = dm.foldl (fun me q => addEvent me s q.1 1) []) := by
  constructor
  · intro h
    refine ⟨by simp [getMuscleGroup, h], by simp [getSecondaryMuscle, h],
      by simp [getSecondaryPercent, h], ?_⟩
    intro dm
    simp [buildEvents, exerciseStep, getMuscleGroup, getSecondaryMuscle, h]
  · intro s hs h
    refine ⟨by simp [getMuscleGroup, h, hs], by simp [getSecondaryMuscle, h],
      by simp [getSecondaryPercent, h], ?_⟩
    intro dm
    simp [buildEvents, exerciseStep, getMuscleGroup, getSecondaryMuscle, h, hs]

/-- C9 witness at concrete inputs: unmapped exercises default to `Other`,
legacy-mapped exercises keep their stored group. -/
theorem claim9_witness :
    getMuscleGroup emptyMuscleMap "Deadlift" = "Other"
    ∧ getMuscleGroup c9LegacyMap "Row" = "Back" :=
  ⟨((claim9_unmapped_defaults emptyMuscleMap "Deadlift").1 rfl).1,
    ((claim9_unmapped_defaults c9LegacyMap "Row").2 "Back" (by decide) (by decide)).1⟩
